import Mathlib

/-
Verification of the advanced-vector container (src/advanced-vector/vector.h).

The C++ source is shallowly embedded as follows.  The raw storage owned by a
`Vector<T>` (its `RawMemory<T> data_` member) is modelled as a list of
`Option` slots: `some x` is a slot holding a live, fully constructed element
with value `x`, and `none` is an uninitialized slot.  The capacity of the
buffer is the length of the slot list, and `size_` is carried alongside.
Placement-new is `List.set i (some x)`, a destructor call is
`List.set i none`, and the standard uninitialized-memory algorithms
(`std::uninitialized_copy_n`, `std::uninitialized_move_n`, `std::move`,
`std::move_backward`, `std::destroy_n`, `std::uninitialized_value_construct_n`)
become explicit slot-by-slot loops.  Moving a value between buffers is
value-preserving here (the moved-from slot is always destroyed or overwritten
immediately afterwards in the source, so its unspecified state never
escapes).

The compile-time dispatch
`if constexpr (std::is_nothrow_move_constructible_v<T> || !std::is_copy_constructible_v<T>)`
is modelled by a `Traits` record of the two booleans; operations that
transfer elements additionally emit an event trace recording, per element,
whether it was move-constructed or copy-constructed, as well as
allocations, destructions and the final size update.
-/

namespace AdvVector

/-- Compile-time properties of the element type `T` that the source inspects:
`nothrowMove` is `std::is_nothrow_move_constructible_v<T>` and `copyCtor` is
`std::is_copy_constructible_v<T>`. -/
structure Traits where
  nothrowMove : Bool
  copyCtor : Bool
deriving DecidableEq

/-- The branch condition of the `if constexpr` in `Reserve`, `EmplaceBack` and
`Emplace` (vector.h lines 197, 221, 251): move-construct the old elements
into the new buffer exactly when the move constructor cannot throw or no copy
constructor exists. -/
def useMove (t : Traits) : Bool :=
  t.nothrowMove || !t.copyCtor

/-- Observable per-element events of a storage operation.  `moveElem i` and
`copyElem i` record that the live element at index `i` of the old buffer was
transferred into the new buffer by move construction resp. copy
construction; `copyConsTail i` records copy construction of a fresh element
at destination index `i` (the `uninitialized_copy_n` tail of copy
assignment); `assignElem i` is a copy assignment into the live slot `i`. -/
inductive Ev where
  | allocEv (cap : Nat)
  | constructNew (i : Nat)
  | moveElem (i : Nat)
  | copyElem (i : Nat)
  | copyConsTail (i : Nat)
  | assignElem (i : Nat)
  | destroyElem (i : Nat)
  | swapBuffers
  | setSize (n : Nat)
deriving DecidableEq

/-- A `Vector<T>`: the slot list models the `RawMemory<T>` buffer
(`slots.length` is `data_.Capacity()`), `size` is the `size_` member. -/
structure Vec (α : Type) where
  slots : List (Option α)
  size : Nat
deriving DecidableEq

/-- The buffer capacity, `data_.Capacity()`. -/
def Vec.capacity {α : Type} (v : Vec α) : Nat :=
  v.slots.length

/-- The default-constructed vector (`Vector() = default`): null buffer,
capacity 0, size 0. -/
def Vec.empty {α : Type} : Vec α :=
  ⟨[], 0⟩

/-- The class invariant of `Vector<T>`: `size_` never exceeds the capacity and
the live (constructed) slots are exactly the prefix `[0, size_)`. -/
def Vec.wf {α : Type} (v : Vec α) : Prop :=
  v.size ≤ v.slots.length ∧
    ∀ i, i < v.slots.length → ((v.slots.getD i none).isSome ↔ i < v.size)

instance {α : Type} (v : Vec α) : Decidable v.wf := by
  unfold Vec.wf
  exact inferInstance

/-- Elementwise transfer of `n` slots from `src` (starting at `srcStart`) into
`dst` (starting at `dstStart`), in increasing index order.  This is the slot
model of `std::uninitialized_copy_n` / `std::uninitialized_move_n` between
two distinct buffers, and also of the element-wise copy-assignment loops of
`operator=` (source and destination buffers are distinct there as well). -/
def transferN {α : Type} (src : List (Option α)) (dst : List (Option α))
    (srcStart dstStart : Nat) : Nat → List (Option α)
  | 0 => dst
  | n + 1 =>
      transferN src (dst.set dstStart (src.getD srcStart none))
        (srcStart + 1) (dstStart + 1) n

/-- Writing the constant `val` into `n` consecutive slots starting at
`start`: with `val = none` this is `std::destroy_n`, with `val = some d` it
is `std::uninitialized_value_construct_n`. -/
def setRange {α : Type} (l : List (Option α)) (start : Nat) (val : Option α) :
    Nat → List (Option α)
  | 0 => l
  | n + 1 => setRange (l.set start val) (start + 1) val n

/-- Slot model of `std::move_backward(begin() + pos, end() - 1, end())` in the
non-reallocating branch of `Emplace`: for `i` from `pos + n - 1` down to
`pos`, slot `i + 1` receives the value of slot `i` (highest index first). -/
def moveBackwardN {α : Type} (l : List (Option α)) (pos : Nat) :
    Nat → List (Option α)
  | 0 => l
  | n + 1 => moveBackwardN (l.set (pos + n + 1) (l.getD (pos + n) none)) pos n

/-- Slot model of `std::move(begin() + pos + 1, end(), begin() + pos)` in
`Erase`: for `i` from `pos` up to `pos + n - 1`, slot `i` receives the value
of slot `i + 1` (lowest index first). -/
def moveForwardN {α : Type} (l : List (Option α)) (pos : Nat) :
    Nat → List (Option α)
  | 0 => l
  | n + 1 => moveForwardN (l.set pos (l.getD (pos + 1) none)) (pos + 1) n

/-- The event trace of transferring the old elements `[start, start+n)` into
a new buffer: all moves when `useMove t`, otherwise all copies, mirroring the
`if constexpr` dispatch. -/
def transferEvs (t : Traits) (start n : Nat) : List Ev :=
  (List.range n).map fun j =>
    if useMove t then Ev.moveElem (start + j) else Ev.copyElem (start + j)

/-- The event trace of `std::destroy_n` over `[start, start+n)`. -/
def destroyEvs (start n : Nat) : List Ev :=
  (List.range n).map fun j => Ev.destroyElem (start + j)

/-- The event trace of the element-wise copy-assignment loop of `operator=`
over destination indices `[start, start+n)`. -/
def assignEvs (start n : Nat) : List Ev :=
  (List.range n).map fun j => Ev.assignElem (start + j)

/-- The event trace of the `uninitialized_copy_n` tail of copy assignment,
copy-constructing fresh elements at destination indices `[start, start+n)`. -/
def copyConsEvs (start n : Nat) : List Ev :=
  (List.range n).map fun j => Ev.copyConsTail (start + j)

/-- `Vector::Reserve` (vector.h lines 192-204), with its event trace.  If the
requested capacity does not exceed the current one the function returns
immediately.  Otherwise it allocates `RawMemory<T> new_data(new_capacity)`,
transfers the `size_` live elements (move or copy per `useMove`), runs
`std::destroy_n(begin(), size_)` on the old buffer and swaps the buffers. -/
def ReserveT {α : Type} (t : Traits) (v : Vec α) (newCapacity : Nat) :
    Vec α × List Ev :=
  if newCapacity ≤ v.slots.length then (v, [])
  else
    ({ slots := transferN v.slots (List.replicate newCapacity none) 0 0 v.size,
       size := v.size },
     Ev.allocEv newCapacity ::
       (transferEvs t 0 v.size ++ destroyEvs 0 v.size ++ [Ev.swapBuffers]))

/-- `Vector::EmplaceBack` (vector.h lines 216-233), with its event trace,
specialised to constructing the value `x` (this also covers both `PushBack`
overloads, which forward to `EmplaceBack`).  When `size_ == Capacity()` a new
buffer of capacity `size_ == 0 ? 1 : 2 * size_` is allocated, the new element
is placement-new constructed at index `size_` of the new buffer, the old
elements are transferred (move or copy per `useMove`), the old ones are
destroyed and the buffers swapped.  Otherwise the new element is constructed
in place at index `size_`.  Finally `size_` is incremented. -/
def EmplaceBackT {α : Type} (t : Traits) (v : Vec α) (x : α) :
    Vec α × List Ev :=
  if v.size = v.slots.length then
    ({ slots :=
         transferN v.slots
           ((List.replicate (if v.size = 0 then 1 else 2 * v.size) none).set
             v.size (some x)) 0 0 v.size,
       size := v.size + 1 },
     Ev.allocEv (if v.size = 0 then 1 else 2 * v.size) ::
       Ev.constructNew v.size ::
       (transferEvs t 0 v.size ++ destroyEvs 0 v.size ++
         [Ev.swapBuffers, Ev.setSize (v.size + 1)]))
  else
    ({ slots := v.slots.set v.size (some x), size := v.size + 1 },
     [Ev.constructNew v.size, Ev.setSize (v.size + 1)])

/-- `Vector::Emplace` (vector.h lines 243-274), with its event trace,
specialised to constructing the value `x` at position `pos` (this also covers
both `Insert` overloads, which forward to `Emplace`).  When
`size_ == Capacity()`: allocate a doubled buffer, construct the new element
at index `pos` of the new buffer, transfer the prefix `[0, pos)` and the
suffix `[pos, size_)` (shifted one slot right) around it, destroy the old
elements, swap.  Otherwise, if `pos != size_`: move-construct the last
element into the slot at index `size_`, `std::move_backward` the range
`[pos, size_ - 1)` one slot right, and assign the new value into slot `pos`;
if `pos == size_`, construct the new element in place at index `size_`.
Finally `size_` is incremented. -/
def EmplaceT {α : Type} (t : Traits) (v : Vec α) (pos : Nat) (x : α) :
    Vec α × List Ev :=
  if v.size = v.slots.length then
    ({ slots :=
         transferN v.slots
           (transferN v.slots
             ((List.replicate (if v.size = 0 then 1 else 2 * v.size) none).set
               pos (some x)) 0 0 pos)
           pos (pos + 1) (v.size - pos),
       size := v.size + 1 },
     Ev.allocEv (if v.size = 0 then 1 else 2 * v.size) ::
       Ev.constructNew pos ::
       (transferEvs t 0 pos ++ transferEvs t pos (v.size - pos) ++
         destroyEvs 0 v.size ++ [Ev.swapBuffers, Ev.setSize (v.size + 1)]))
  else
    if v.size ≠ pos then
      ({ slots :=
           (moveBackwardN (v.slots.set v.size (v.slots.getD (v.size - 1) none))
             pos (v.size - 1 - pos)).set pos (some x),
         size := v.size + 1 },
       [Ev.constructNew v.size, Ev.assignElem pos,
        Ev.setSize (v.size + 1)])
    else
      ({ slots := v.slots.set pos (some x), size := v.size + 1 },
       [Ev.constructNew pos, Ev.setSize (v.size + 1)])

/-- `Vector::Erase` (vector.h lines 290-296): `std::move` the range
`[pos + 1, size_)` one slot left, destroy the now-vacated last slot, and
decrement `size_`. -/
def Erase {α : Type} (v : Vec α) (pos : Nat) : Vec α :=
  { slots :=
      (moveForwardN v.slots pos (v.size - 1 - pos)).set (v.size - 1) none,
    size := v.size - 1 }

/-- `Vector::PopBack` (vector.h lines 284-288): decrement `size_` and destroy
the element at the new `size_`. -/
def PopBack {α : Type} (v : Vec α) : Vec α :=
  { slots := v.slots.set (v.size - 1) none, size := v.size - 1 }

/-- `Vector::Resize` (vector.h lines 206-214): `Reserve(new_size)`, then
value-construct the newly exposed slots when growing or destroy the excess
slots when shrinking, then set `size_ = new_size`. -/
def Resize {α : Type} [Inhabited α] (t : Traits) (v : Vec α) (newSize : Nat) :
    Vec α :=
  if v.size < newSize then
    { slots :=
        setRange (ReserveT t v newSize).1.slots v.size (some default)
          (newSize - v.size),
      size := newSize }
  else if newSize < v.size then
    { slots :=
        setRange (ReserveT t v newSize).1.slots newSize none
          (v.size - newSize),
      size := newSize }
  else
    { slots := (ReserveT t v newSize).1.slots, size := newSize }

/-- `Vector::operator=(const Vector&)` (vector.h lines 106-127), with its
event trace.  The `selfRef` flag models the address identity test
`this != &rhs`: when the operand is the object itself nothing happens.
Otherwise, if `rhs.size_ > data_.Capacity()`, a full copy of `rhs` is
constructed (the copy constructor allocates capacity `rhs.size_` and
copy-constructs all elements) and swapped in.  Otherwise the overlapping
prefix is copy-assigned element-wise; if `rhs` is shorter the excess tail is
destroyed, if longer the extra elements are copy-constructed after the
prefix; `size_ = rhs.size_` happens last. -/
def copyAssignT {α : Type} (v rhs : Vec α) (selfRef : Bool) :
    Vec α × List Ev :=
  if selfRef then (v, [])
  else if v.slots.length < rhs.size then
    ({ slots := transferN rhs.slots (List.replicate rhs.size none) 0 0 rhs.size,
       size := rhs.size },
     Ev.allocEv rhs.size :: (copyConsEvs 0 rhs.size ++ [Ev.swapBuffers]))
  else if rhs.size < v.size then
    ({ slots :=
         setRange (transferN rhs.slots v.slots 0 0 rhs.size) rhs.size none
           (v.size - rhs.size),
       size := rhs.size },
     assignEvs 0 rhs.size ++ destroyEvs rhs.size (v.size - rhs.size) ++
       [Ev.setSize rhs.size])
  else
    ({ slots :=
         transferN rhs.slots (transferN rhs.slots v.slots 0 0 v.size) v.size
           v.size (rhs.size - v.size),
       size := rhs.size },
     assignEvs 0 v.size ++ copyConsEvs v.size (rhs.size - v.size) ++
       [Ev.setSize rhs.size])

/-- `Vector::Vector(Vector&&)` (vector.h lines 129-135): the member
initializer `data_(other.size_)` allocates a fresh uninitialized buffer of
capacity `other.size_` and sets `size_ = other.size_`; the body swaps the
buffers and sets `other.size_ = 0`.  Returns (new vector, source after the
move). -/
def moveCtor {α : Type} (w : Vec α) : Vec α × Vec α :=
  ({ slots := w.slots, size := w.size },
   { slots := List.replicate w.size none, size := 0 })

/-- `Vector::operator=(Vector&&)` (vector.h lines 136-140): the body is
exactly `data_.Swap(rhs.data_); rhs.size_ = 0;` — it exchanges the two raw
buffers, leaves `this->size_` unchanged and zeroes `rhs.size_`.  Returns
(assigned-to vector after, source after). -/
def moveAssign {α : Type} (v rhs : Vec α) : Vec α × Vec α :=
  ({ slots := rhs.slots, size := v.size },
   { slots := v.slots, size := 0 })

/-- The state reached from the default-constructed vector by `n` successive
appends of the value `x` (`PushBack`/`EmplaceBack`). -/
def appendN {α : Type} (t : Traits) (x : α) : Nat → Vec α
  | 0 => Vec.empty
  | n + 1 => (EmplaceBackT t (appendN t x n) x).1

/-- Recognizer for the element-transfer events of a trace. -/
def isTransferEv : Ev → Bool
  | Ev.moveElem _ => true
  | Ev.copyElem _ => true
  | Ev.copyConsTail _ => false
  | Ev.allocEv _ => false
  | Ev.constructNew _ => false
  | Ev.assignElem _ => false
  | Ev.destroyElem _ => false
  | Ev.swapBuffers => false
  | Ev.setSize _ => false

/-- The reallocating branch of `EmplaceBack` (vector.h lines 218-227) with
an oracle for whether the placement-new construction of the new element
throws.  The source's step order is: allocate
`RawMemory<T> new_data((size_ == 0) ? 1 : 2 * size_)`; placement-new the new
element at `new_data.GetAddress() + size_`; only then transfer the old
elements, destroy them, and swap.  If the construction throws, stack
unwinding runs `new_data.~RawMemory()` (releasing the new buffer, which
holds no constructed element yet) and nothing else has happened, so the
exception escapes with the vector exactly as it was: the `error` value
carries that final state. -/
def EmplaceBackGrow {α : Type} (v : Vec α) (x : α) (ctorThrows : Bool) :
    Except (Vec α) (Vec α) :=
  if ctorThrows then
    Except.error v
  else
    Except.ok
      { slots :=
          transferN v.slots
            ((List.replicate (if v.size = 0 then 1 else 2 * v.size)
              (none : Option α)).set v.size (some x)) 0 0 v.size,
        size := v.size + 1 }

/-- A vector state extended with the allocation status of its buffer:
`bufFreed = true` means `operator delete` has already been run on the
buffer the vector currently points to. -/
structure VecB (α : Type) where
  slots : List (Option α)
  bufFreed : Bool
  size : Nat
deriving DecidableEq

/-- A `VecB` state on which running `~Vector()` — that is,
`std::destroy_n(begin(), size_)` followed by releasing the buffer — is
defined behaviour: the owned buffer has not already been freed, and the
`size_` counter stays within the buffer and covers only live slots. -/
def VecB.destructible {α : Type} (b : VecB α) : Prop :=
  b.bufFreed = false ∧ b.size ≤ b.slots.length ∧
    ∀ i, i < b.size → (b.slots.getD i none).isSome

instance {α : Type} (b : VecB α) : Decidable b.destructible := by
  unfold VecB.destructible
  exact inferInstance

/-- The reallocating branch of `Emplace` (vector.h lines 246-262) for an
element type on the copy branch of the `if constexpr` (copyable but with a
potentially-throwing move constructor), with an oracle `k` giving the index
of the copy construction of the transfer at which the element's copy
constructor throws (the `pos` prefix copies run first, then the
`v.size - pos` suffix copies; `k` at least their total means no throw).
Following the source: a buffer of capacity `size_ == 0 ? 1 : 2 * size_` is
allocated and the new element constructed at its index `pos`; the prefix
`[0, pos)` is copied, then the suffix `[pos, size_)` one slot right.  If a
copy throws, the throwing `uninitialized_copy_n` call destroys the copies
it itself made, and the exception reaches the handler
`catch (...) { new_data.~RawMemory(); }`, which frees the new buffer and —
crucially — does not rethrow.  Execution therefore falls through to
`std::destroy_n(begin(), size_)` (destroying all old elements),
`data_.Swap(new_data)` (installing the already-freed buffer as the vector's
storage; `new_data`, now holding the old buffer, is destructed a second
time at scope exit) and `++size_`.  The returned state is the vector after
the call: on the throw paths it owns a freed buffer whose recorded contents
are the new element plus any prefix copies that survived, with the
incremented size. -/
def EmplaceGrowCopyThrow {α : Type} (v : Vec α) (pos : Nat) (x : α)
    (k : Nat) : VecB α :=
  if k < pos then
    { slots :=
        (List.replicate (if v.size = 0 then 1 else 2 * v.size)
          (none : Option α)).set pos (some x),
      bufFreed := true, size := v.size + 1 }
  else if k < pos + (v.size - pos) then
    { slots :=
        transferN v.slots
          ((List.replicate (if v.size = 0 then 1 else 2 * v.size)
            (none : Option α)).set pos (some x)) 0 0 pos,
      bufFreed := true, size := v.size + 1 }
  else
    { slots :=
        transferN v.slots
          (transferN v.slots
            ((List.replicate (if v.size = 0 then 1 else 2 * v.size)
              (none : Option α)).set pos (some x)) 0 0 pos)
          pos (pos + 1) (v.size - pos),
      bufFreed := false, size := v.size + 1 }

/-- Reading a slot just written by `List.set`. -/
theorem getD_set_self {α : Type} (l : List (Option α)) (i : Nat)
    (a : Option α) (h : i < l.length) : (l.set i a).getD i none = a := by
  simp [List.getD_eq_getElem?_getD, List.getElem?_set_self, h]

/-- `List.set` leaves the other slots unchanged. -/
theorem getD_set_of_ne {α : Type} {l : List (Option α)} {i j : Nat}
    {a : Option α} (h : i ≠ j) : (l.set i a).getD j none = l.getD j none := by
  simp [List.getD_eq_getElem?_getD, List.getElem?_set_ne h]

/-- Every slot of a freshly allocated buffer is uninitialized. -/
theorem getD_replicate_none {α : Type} (n i : Nat) :
    (List.replicate n (none : Option α)).getD i none = none := by
  simp [List.getD_eq_getElem?_getD]

/-- `transferN` does not change the destination buffer's capacity. -/
theorem length_transferN {α : Type} (src : List (Option α)) (n : Nat) :
    ∀ (dst : List (Option α)) (s d : Nat),
      (transferN src dst s d n).length = dst.length := by
  induction n with
  | zero => intro dst s d; rw [transferN]
  | succ n ih => intro dst s d; rw [transferN, ih]; simp

/-- Slot contents after `transferN`: the destination window `[d, d+n)` holds
the source values read from `[s, s+n)`, slots outside it are unchanged. -/
theorem getD_transferN {α : Type} (src : List (Option α)) (n : Nat) :
    ∀ (dst : List (Option α)) (s d : Nat), d + n ≤ dst.length → ∀ i : Nat,
      (transferN src dst s d n).getD i none =
        if d ≤ i ∧ i < d + n then src.getD (s + (i - d)) none
        else dst.getD i none := by
  induction n with
  | zero =>
      intro dst s d _ i
      rw [transferN, if_neg (by omega)]
  | succ n ih =>
      intro dst s d h i
      rw [transferN, ih _ (s + 1) (d + 1) (by simp; omega)]
      by_cases h1 : d + 1 ≤ i ∧ i < d + 1 + n
      · rw [if_pos h1, if_pos (by omega)]
        congr 1
        omega
      · rw [if_neg h1]
        by_cases h2 : i = d
        · subst h2
          rw [if_pos (by omega), getD_set_self _ _ _ (by omega)]
          congr 1
          omega
        · rw [getD_set_of_ne (show d ≠ i by omega), if_neg (by omega)]

/-- `setRange` does not change the buffer's capacity. -/
theorem length_setRange {α : Type} (val : Option α) (n : Nat) :
    ∀ (l : List (Option α)) (start : Nat),
      (setRange l start val n).length = l.length := by
  induction n with
  | zero => intro l start; rw [setRange]
  | succ n ih => intro l start; rw [setRange, ih]; simp

/-- Slot contents after `setRange`: the window `[start, start+n)` holds
`val`, slots outside it are unchanged. -/
theorem getD_setRange {α : Type} (val : Option α) (n : Nat) :
    ∀ (l : List (Option α)) (start : Nat), start + n ≤ l.length → ∀ i : Nat,
      (setRange l start val n).getD i none =
        if start ≤ i ∧ i < start + n then val else l.getD i none := by
  induction n with
  | zero =>
      intro l start _ i
      rw [setRange, if_neg (by omega)]
  | succ n ih =>
      intro l start h i
      rw [setRange, ih _ (start + 1) (by simp; omega)]
      by_cases h1 : start + 1 ≤ i ∧ i < start + 1 + n
      · rw [if_pos h1, if_pos (by omega)]
      · rw [if_neg h1]
        by_cases h2 : i = start
        · subst h2
          rw [if_pos (by omega), getD_set_self _ _ _ (by omega)]
        · rw [getD_set_of_ne (show start ≠ i by omega), if_neg (by omega)]

/-- `moveBackwardN` does not change the buffer's capacity. -/
theorem length_moveBackwardN {α : Type} (n : Nat) :
    ∀ (l : List (Option α)) (pos : Nat),
      (moveBackwardN l pos n).length = l.length := by
  induction n with
  | zero => intro l pos; rw [moveBackwardN]
  | succ n ih => intro l pos; rw [moveBackwardN, ih]; simp

/-- Slot contents after the backward shift: slots `(pos, pos+n]` hold the
value of their left neighbour, all other slots are unchanged. -/
theorem getD_moveBackwardN {α : Type} (n : Nat) :
    ∀ (l : List (Option α)) (pos : Nat), pos + n < l.length → ∀ i : Nat,
      (moveBackwardN l pos n).getD i none =
        if pos + 1 ≤ i ∧ i ≤ pos + n then l.getD (i - 1) none
        else l.getD i none := by
  induction n with
  | zero =>
      intro l pos _ i
      rw [moveBackwardN, if_neg (by omega)]
  | succ n ih =>
      intro l pos h i
      rw [moveBackwardN, ih _ pos (by simp; omega)]
      by_cases h1 : pos + 1 ≤ i ∧ i ≤ pos + n
      · rw [if_pos h1, if_pos (by omega),
          getD_set_of_ne (show pos + n + 1 ≠ i - 1 by omega)]
      · rw [if_neg h1]
        by_cases h2 : i = pos + n + 1
        · subst h2
          rw [if_pos (by omega), getD_set_self _ _ _ (by omega)]
          congr 1
        · rw [getD_set_of_ne (show pos + n + 1 ≠ i by omega),
            if_neg (by omega)]

/-- `moveForwardN` does not change the buffer's capacity. -/
theorem length_moveForwardN {α : Type} (n : Nat) :
    ∀ (l : List (Option α)) (pos : Nat),
      (moveForwardN l pos n).length = l.length := by
  induction n with
  | zero => intro l pos; rw [moveForwardN]
  | succ n ih => intro l pos; rw [moveForwardN, ih]; simp

/-- Slot contents after the forward shift: slots `[pos, pos+n)` hold the
value of their right neighbour, all other slots are unchanged. -/
theorem getD_moveForwardN {α : Type} (n : Nat) :
    ∀ (l : List (Option α)) (pos : Nat), pos + n < l.length → ∀ i : Nat,
      (moveForwardN l pos n).getD i none =
        if pos ≤ i ∧ i < pos + n then l.getD (i + 1) none
        else l.getD i none := by
  induction n with
  | zero =>
      intro l pos _ i
      rw [moveForwardN, if_neg (by omega)]
  | succ n ih =>
      intro l pos h i
      rw [moveForwardN, ih _ (pos + 1) (by simp; omega)]
      by_cases h1 : pos + 1 ≤ i ∧ i < pos + 1 + n
      · rw [if_pos h1, if_pos (by omega),
          getD_set_of_ne (show pos ≠ i + 1 by omega)]
      · rw [if_neg h1]
        by_cases h2 : i = pos
        · subst h2
          rw [if_pos (by omega), getD_set_self _ _ _ (by omega)]
        · rw [getD_set_of_ne (show pos ≠ i by omega), if_neg (by omega)]

/-- The `if constexpr` condition, spelled out on the two traits. -/
theorem useMove_eq_true_iff (t : Traits) :
    useMove t = true ↔ (t.nothrowMove = true ∨ t.copyCtor = false) := by
  obtain ⟨m, c⟩ := t
  cases m <;> cases c <;> simp [useMove]

/-- A move-construction event occurs in a transfer exactly for the indices of
the transferred window and exactly when the move branch was selected. -/
theorem moveElem_mem_transferEvs {t : Traits} {start n i : Nat} :
    Ev.moveElem i ∈ transferEvs t start n ↔
      useMove t = true ∧ start ≤ i ∧ i < start + n := by
  cases h : useMove t
  · simp [transferEvs, h]
  · simp only [transferEvs, h, if_true, List.mem_map, List.mem_range,
      Ev.moveElem.injEq, true_and]
    constructor
    · rintro ⟨j, hj, rfl⟩
      omega
    · rintro ⟨h1, h2⟩
      exact ⟨i - start, by omega, by omega⟩

/-- A copy-construction transfer event occurs exactly for the indices of the
transferred window and exactly when the copy branch was selected. -/
theorem copyElem_mem_transferEvs {t : Traits} {start n i : Nat} :
    Ev.copyElem i ∈ transferEvs t start n ↔
      useMove t = false ∧ start ≤ i ∧ i < start + n := by
  cases h : useMove t
  · simp only [transferEvs, h]
    simp only [Bool.false_eq_true, if_false, List.mem_map, List.mem_range,
      Ev.copyElem.injEq, eq_self_iff_true, true_and]
    constructor
    · rintro ⟨j, hj, hji⟩
      omega
    · rintro ⟨h1, h2⟩
      exact ⟨i - start, by omega, by omega⟩
  · simp [transferEvs, h]

/-- Destruction events of `destroyEvs` cover exactly the destroyed window. -/
theorem destroyElem_mem_destroyEvs {start n i : Nat} :
    Ev.destroyElem i ∈ destroyEvs start n ↔ start ≤ i ∧ i < start + n := by
  simp only [destroyEvs, List.mem_map, List.mem_range, Ev.destroyElem.injEq]
  constructor
  · rintro ⟨j, hj, rfl⟩
    omega
  · rintro ⟨h1, h2⟩
    exact ⟨i - start, by omega, by omega⟩

/-- Tail copy-construction events of `copyConsEvs` cover exactly the
constructed window. -/
theorem copyConsTail_mem_copyConsEvs {start n i : Nat} :
    Ev.copyConsTail i ∈ copyConsEvs start n ↔ start ≤ i ∧ i < start + n := by
  simp only [copyConsEvs, List.mem_map, List.mem_range, Ev.copyConsTail.injEq]
  constructor
  · rintro ⟨j, hj, rfl⟩
    omega
  · rintro ⟨h1, h2⟩
    exact ⟨i - start, by omega, by omega⟩

/-- Negated form of the `if constexpr` condition. -/
theorem useMove_eq_false_iff (t : Traits) :
    useMove t = false ↔ ¬(t.nothrowMove = true ∨ t.copyCtor = false) := by
  obtain ⟨m, c⟩ := t
  cases m <;> cases c <;> simp [useMove]

/-- C1: in every reallocating growth operation — `Reserve` past the current
capacity, a growing append (`EmplaceBack`/`PushBack`), a growing insert
(`Emplace`/`Insert`) — each pre-existing live element `i < size_` is
transferred into the new storage by move construction iff the element type's
move constructor is declared non-throwing or the type has no copy
constructor, and by copy construction otherwise. -/
theorem growth_transfer_move_iff {α : Type} (t : Traits) (v : Vec α)
    (nc pos : Nat) (x y : α) (i : Nat) :
    (v.slots.length < nc →
      ((Ev.moveElem i ∈ (ReserveT t v nc).2 ↔
          i < v.size ∧ (t.nothrowMove = true ∨ t.copyCtor = false)) ∧
        (Ev.copyElem i ∈ (ReserveT t v nc).2 ↔
          i < v.size ∧ ¬(t.nothrowMove = true ∨ t.copyCtor = false)))) ∧
    (v.size = v.slots.length →
      ((Ev.moveElem i ∈ (EmplaceBackT t v x).2 ↔
          i < v.size ∧ (t.nothrowMove = true ∨ t.copyCtor = false)) ∧
        (Ev.copyElem i ∈ (EmplaceBackT t v x).2 ↔
          i < v.size ∧ ¬(t.nothrowMove = true ∨ t.copyCtor = false)))) ∧
    (v.size = v.slots.length → pos ≤ v.size →
      ((Ev.moveElem i ∈ (EmplaceT t v pos y).2 ↔
          i < v.size ∧ (t.nothrowMove = true ∨ t.copyCtor = false)) ∧
        (Ev.copyElem i ∈ (EmplaceT t v pos y).2 ↔
          i < v.size ∧ ¬(t.nothrowMove = true ∨ t.copyCtor = false)))) := by
  refine ⟨fun h => ⟨?_, ?_⟩, fun h => ⟨?_, ?_⟩, fun h hp => ⟨?_, ?_⟩⟩
  · rw [ReserveT, if_neg (by omega)]
    simp [moveElem_mem_transferEvs, destroyEvs, useMove_eq_true_iff]
    tauto
  · rw [ReserveT, if_neg (by omega)]
    simp [copyElem_mem_transferEvs, destroyEvs, useMove_eq_false_iff]
    tauto
  · rw [EmplaceBackT, if_pos h]
    simp [moveElem_mem_transferEvs, destroyEvs, useMove_eq_true_iff]
    tauto
  · rw [EmplaceBackT, if_pos h]
    simp [copyElem_mem_transferEvs, destroyEvs, useMove_eq_false_iff]
    tauto
  · rw [EmplaceT, if_pos h]
    simp [moveElem_mem_transferEvs, destroyEvs, useMove_eq_true_iff]
    constructor
    · rintro (⟨hc, h1⟩ | ⟨hc, h1, h2⟩) <;> exact ⟨by omega, hc⟩
    · rintro ⟨hi, hc⟩
      by_cases hip : i < pos
      · exact Or.inl ⟨hc, hip⟩
      · exact Or.inr ⟨hc, by omega, by omega⟩
  · rw [EmplaceT, if_pos h]
    simp [copyElem_mem_transferEvs, destroyEvs, useMove_eq_false_iff]
    constructor
    · rintro (⟨hc, h1⟩ | ⟨hc, h1, h2⟩) <;> exact ⟨by omega, hc⟩
    · rintro ⟨hi, hc⟩
      by_cases hip : i < pos
      · exact Or.inl ⟨hc, hip⟩
      · exact Or.inr ⟨hc, by omega, by omega⟩

theorem growth_transfer_move_iff_witness :
    Ev.copyElem 0 ∈
      (ReserveT ⟨false, true⟩ (⟨[some 3], 1⟩ : Vec Nat) 4).2 ∧
    Ev.moveElem 0 ∈
      (EmplaceBackT ⟨true, true⟩ (⟨[some 3], 1⟩ : Vec Nat) 7).2 :=
  ⟨((growth_transfer_move_iff ⟨false, true⟩ ⟨[some 3], 1⟩ 4 0 7 7 0).1
      (by decide)).2.mpr (by decide),
   ((growth_transfer_move_iff ⟨true, true⟩ ⟨[some 3], 1⟩ 4 0 7 7 0).2.1
      (by decide)).1.mpr (by decide)⟩

/-- C7: for every vector and every `k` with `k <= Capacity`, `Reserve(k)` is
a no-op — the early return at vector.h line 193 fires, so capacity, size and
all element values are unchanged and the trace is empty (no allocation, no
reallocation). -/
theorem reserve_noop_when_within_capacity {α : Type} (t : Traits) (v : Vec α)
    (k : Nat) (h : k ≤ v.slots.length) : ReserveT t v k = (v, []) := by
  rw [ReserveT, if_pos h]

theorem reserve_noop_witness :
    ReserveT ⟨true, true⟩ (⟨[some 1, some 2], 2⟩ : Vec Nat) 2 =
      (⟨[some 1, some 2], 2⟩, []) :=
  reserve_noop_when_within_capacity ⟨true, true⟩ _ 2 (by decide)

/-- C8: move construction takes over the source buffer wholesale — the new
vector has exactly the source's prior size and slot contents (hence its
element values in order) — and leaves the source with size 0. -/
theorem move_construct_spec {α : Type} (w : Vec α) :
    (moveCtor w).1.slots = w.slots ∧ (moveCtor w).1.size = w.size ∧
      (moveCtor w).2.size = 0 :=
  ⟨rfl, rfl, rfl⟩

/-- C10: self copy-assignment is a no-op — the `this != &rhs` test at
vector.h line 107 short-circuits, so size, capacity and all element values
are unchanged and no per-element work happens (empty trace). -/
theorem self_copy_assign_noop {α : Type} (v : Vec α) :
    copyAssignT v v true = (v, []) := by
  rw [copyAssignT]
  simp

/-- `EmplaceBack` always increments `size_` by one. -/
theorem EmplaceBackT_fst_size {α : Type} (t : Traits) (v : Vec α) (x : α) :
    (EmplaceBackT t v x).1.size = v.size + 1 := by
  rw [EmplaceBackT]
  split
  · rfl
  · rfl

/-- Capacity after a growing `EmplaceBack`: `size_ == 0 ? 1 : 2 * size_`. -/
theorem EmplaceBackT_fst_length_grow {α : Type} (t : Traits) (v : Vec α)
    (x : α) (h : v.size = v.slots.length) :
    (EmplaceBackT t v x).1.slots.length =
      if v.size = 0 then 1 else 2 * v.size := by
  rw [EmplaceBackT, if_pos h]
  simp [length_transferN]

/-- A non-growing `EmplaceBack` leaves the capacity unchanged. -/
theorem EmplaceBackT_fst_length_stay {α : Type} (t : Traits) (v : Vec α)
    (x : α) (h : v.size ≠ v.slots.length) :
    (EmplaceBackT t v x).1.slots.length = v.slots.length := by
  rw [EmplaceBackT, if_neg h]
  simp

/-- Loop invariant of repeated appends from empty: the size counts the
appends, the capacity is 0 while empty and otherwise a power of two in
`[n, 2n)`. -/
theorem appendN_size_cap {α : Type} (t : Traits) (x : α) (n : Nat) :
    (appendN t x n).size = n ∧
      (n = 0 → (appendN t x n).slots.length = 0) ∧
      (0 < n → ∃ k, (appendN t x n).slots.length = 2 ^ k ∧
        n ≤ (appendN t x n).slots.length ∧
        (appendN t x n).slots.length < 2 * n) := by
  induction n with
  | zero => exact ⟨rfl, fun _ => rfl, fun hc => absurd hc (by omega)⟩
  | succ n ih =>
      obtain ⟨hsz, hz, hpos⟩ := ih
      have hstep : appendN t x (n + 1) = (EmplaceBackT t (appendN t x n) x).1 := by
        rw [appendN]
      refine ⟨by rw [hstep, EmplaceBackT_fst_size, hsz], fun hc => by omega,
        fun _ => ?_⟩
      by_cases h0 : n = 0
      · subst h0
        have hg : (appendN t x 0).size = (appendN t x 0).slots.length := by
          rw [hsz, hz rfl]
        have hlen := EmplaceBackT_fst_length_grow t (appendN t x 0) x hg
        rw [hsz] at hlen
        rw [if_pos rfl] at hlen
        rw [hstep, hlen]
        exact ⟨0, by norm_num, by norm_num, by norm_num⟩
      · obtain ⟨k, hk, hle, hlt⟩ := hpos (by omega)
        by_cases hg : (appendN t x n).size = (appendN t x n).slots.length
        · have hlen := EmplaceBackT_fst_length_grow t (appendN t x n) x hg
          rw [hsz, if_neg h0] at hlen
          have hn2 : (appendN t x n).slots.length = n := by
            rw [← hg, hsz]
          rw [hstep, hlen]
          refine ⟨k + 1, ?_, by omega, by omega⟩
          rw [pow_succ]
          rw [hn2] at hk
          omega
        · have hlen := EmplaceBackT_fst_length_stay t (appendN t x n) x hg
          have hn2 : n < (appendN t x n).slots.length := by
            rw [hsz] at hg
            omega
          rw [hstep, hlen]
          exact ⟨k, hk, by omega, by omega⟩

/-- C4: starting from the default-constructed vector, after `n` appends the
size is `n` and the capacity is the least power of two at least `n` (and `0`
when `n = 0`); moreover an append changes the capacity only when
`size_ == Capacity()`, in which case the new capacity is 1 for an empty
vector and twice the current size otherwise. -/
theorem append_doubling_policy {α : Type} (t : Traits) (x : α) (n : Nat)
    (v : Vec α) (y : α) :
    ((appendN t x n).size = n) ∧
    (n = 0 → (appendN t x n).slots.length = 0) ∧
    (0 < n → (∃ k, (appendN t x n).slots.length = 2 ^ k) ∧
      n ≤ (appendN t x n).slots.length ∧
      (∀ j, n ≤ 2 ^ j → (appendN t x n).slots.length ≤ 2 ^ j)) ∧
    (v.size ≠ v.slots.length →
      (EmplaceBackT t v y).1.slots.length = v.slots.length) ∧
    (v.size = v.slots.length →
      (EmplaceBackT t v y).1.slots.length =
        if v.size = 0 then 1 else 2 * v.size) := by
  obtain ⟨hsz, hz, hpos⟩ := appendN_size_cap t x n
  refine ⟨hsz, hz, fun hn => ?_, EmplaceBackT_fst_length_stay t v y,
    EmplaceBackT_fst_length_grow t v y⟩
  obtain ⟨k, hk, hle, hlt⟩ := hpos hn
  refine ⟨⟨k, hk⟩, hle, fun j hj => ?_⟩
  have h1 : 2 ^ k < 2 ^ (j + 1) := by
    have h2j : (2 : Nat) ^ (j + 1) = 2 * 2 ^ j := by ring
    omega
  have h2 : k < j + 1 := (Nat.pow_lt_pow_iff_right (by omega)).1 h1
  have h3 : (2 : Nat) ^ k ≤ 2 ^ j := Nat.pow_le_pow_right (by omega) (by omega)
  omega

theorem append_doubling_policy_witness :
    (appendN ⟨true, true⟩ (5 : Nat) 3).size = 3 ∧
      (appendN ⟨true, true⟩ (5 : Nat) 3).slots.length ≤ 2 ^ 2 :=
  ⟨(append_doubling_policy ⟨true, true⟩ 5 3 (Vec.empty : Vec Nat) 5).1,
    ((append_doubling_policy ⟨true, true⟩ 5 3 (Vec.empty : Vec Nat) 5).2.2.1
        (by decide)).2.2 2 (by decide)⟩

/-- Value-level effect of `Emplace` at a valid position: the size grows by
one, the buffer can hold it, values below `pos` are unchanged, slot `pos`
holds the new value, and the former values of `[pos, size_)` sit one slot to
the right.  Holds on both the reallocating and the shifting paths. -/
theorem EmplaceT_fst_spec {α : Type} (t : Traits) (v : Vec α) (pos : Nat)
    (x : α) (h1 : v.size ≤ v.slots.length) (h2 : pos ≤ v.size) :
    (EmplaceT t v pos x).1.size = v.size + 1 ∧
    v.size + 1 ≤ (EmplaceT t v pos x).1.slots.length ∧
    (∀ i, i < pos →
      (EmplaceT t v pos x).1.slots.getD i none = v.slots.getD i none) ∧
    (EmplaceT t v pos x).1.slots.getD pos none = some x ∧
    (∀ i, pos < i → i ≤ v.size →
      (EmplaceT t v pos x).1.slots.getD i none = v.slots.getD (i - 1) none) := by
  by_cases hg : v.size = v.slots.length
  · rw [EmplaceT, if_pos hg]
    have hnc : v.size + 1 ≤ (if v.size = 0 then 1 else 2 * v.size) := by
      by_cases h0 : v.size = 0
      · simp [h0]
      · simp [h0]
        omega
    have hb0len :
        ((List.replicate (if v.size = 0 then 1 else 2 * v.size)
          (none : Option α)).set pos (some x)).length =
          (if v.size = 0 then 1 else 2 * v.size) := by
      simp
    have hb1len :
        (transferN v.slots
          ((List.replicate (if v.size = 0 then 1 else 2 * v.size)
            (none : Option α)).set pos (some x)) 0 0 pos).length =
          (if v.size = 0 then 1 else 2 * v.size) := by
      rw [length_transferN, hb0len]
    have hbnd1 : 0 + pos ≤
        ((List.replicate (if v.size = 0 then 1 else 2 * v.size)
          (none : Option α)).set pos (some x)).length := by
      rw [hb0len]
      omega
    have hbnd2 : (pos + 1) + (v.size - pos) ≤
        (transferN v.slots
          ((List.replicate (if v.size = 0 then 1 else 2 * v.size)
            (none : Option α)).set pos (some x)) 0 0 pos).length := by
      rw [hb1len]
      omega
    refine ⟨rfl, ?_, ?_, ?_, ?_⟩
    · show v.size + 1 ≤ (transferN _ _ _ _ _).length
      rw [length_transferN, hb1len]
      exact hnc
    · intro i hi
      show (transferN _ _ _ _ _).getD i none = _
      rw [getD_transferN _ _ _ _ _ hbnd2 i, if_neg (by omega),
        getD_transferN _ _ _ _ _ hbnd1 i, if_pos (by omega)]
      congr 1
      omega
    · show (transferN _ _ _ _ _).getD pos none = some x
      rw [getD_transferN _ _ _ _ _ hbnd2 pos, if_neg (by omega),
        getD_transferN _ _ _ _ _ hbnd1 pos, if_neg (by omega),
        getD_set_self _ _ _ (by simp; omega)]
    · intro i hi1 hi2
      show (transferN _ _ _ _ _).getD i none = _
      rw [getD_transferN _ _ _ _ _ hbnd2 i, if_pos (by omega)]
      congr 1
      omega
  · rw [EmplaceT, if_neg hg]
    have hlt : v.size < v.slots.length := by omega
    by_cases hq : v.size = pos
    · rw [if_neg (by omega)]
      refine ⟨rfl, ?_, ?_, ?_, ?_⟩
      · show v.size + 1 ≤ (v.slots.set pos (some x)).length
        simp
        omega
      · intro i hi
        exact getD_set_of_ne (by omega)
      · show (v.slots.set pos (some x)).getD pos none = some x
        exact getD_set_self _ _ _ (by omega)
      · intro i hi1 hi2
        exact absurd hi1 (by omega)
    · rw [if_pos (by omega)]
      have hps : pos < v.size := by omega
      have hbndB : pos + (v.size - 1 - pos) <
          (v.slots.set v.size (v.slots.getD (v.size - 1) none)).length := by
        simp
        omega
      refine ⟨rfl, ?_, ?_, ?_, ?_⟩
      · show v.size + 1 ≤ ((moveBackwardN _ _ _).set pos (some x)).length
        rw [List.length_set, length_moveBackwardN, List.length_set]
        omega
      · intro i hi
        show ((moveBackwardN _ _ _).set pos (some x)).getD i none = _
        rw [getD_set_of_ne (show pos ≠ i by omega),
          getD_moveBackwardN _ _ _ hbndB i, if_neg (by omega),
          getD_set_of_ne (show v.size ≠ i by omega)]
      · show ((moveBackwardN _ _ _).set pos (some x)).getD pos none = some x
        refine getD_set_self _ _ _ ?_
        rw [length_moveBackwardN, List.length_set]
        omega
      · intro i hi1 hi2
        show ((moveBackwardN _ _ _).set pos (some x)).getD i none = _
        rw [getD_set_of_ne (show pos ≠ i by omega)]
        by_cases hi3 : i = v.size
        · subst hi3
          rw [getD_moveBackwardN _ _ _ hbndB v.size, if_neg (by omega),
            getD_set_self _ _ _ (by omega)]
        · rw [getD_moveBackwardN _ _ _ hbndB i, if_pos (by omega),
            getD_set_of_ne (show v.size ≠ i - 1 by omega)]

/-- Value-level effect of `Erase` at a valid position: the size shrinks by
one, values below `pos` are unchanged, and values from `pos` on are the
former right neighbours. -/
theorem Erase_spec {α : Type} (v : Vec α) (pos : Nat)
    (h1 : v.size ≤ v.slots.length) (h2 : pos < v.size) :
    (Erase v pos).size = v.size - 1 ∧
    (∀ i, i < pos → (Erase v pos).slots.getD i none = v.slots.getD i none) ∧
    (∀ i, pos ≤ i → i < v.size - 1 →
      (Erase v pos).slots.getD i none = v.slots.getD (i + 1) none) := by
  have hbnd : pos + (v.size - 1 - pos) < v.slots.length := by omega
  refine ⟨rfl, ?_, ?_⟩
  · intro i hi
    show ((moveForwardN _ _ _).set (v.size - 1) none).getD i none = _
    rw [getD_set_of_ne (show v.size - 1 ≠ i by omega),
      getD_moveForwardN _ _ _ hbnd i, if_neg (by omega)]
  · intro i hi1 hi2
    show ((moveForwardN _ _ _).set (v.size - 1) none).getD i none = _
    rw [getD_set_of_ne (show v.size - 1 ≠ i by omega),
      getD_moveForwardN _ _ _ hbnd i, if_pos (by omega)]

/-- C5: for every vector, every position `pos <= size` (both ends included)
and every value, `Emplace`/`Insert` at `pos` followed by `Erase` at `pos`
restores the original size and the original sequence of element values. -/
theorem insert_then_erase_roundtrip {α : Type} (t : Traits) (v : Vec α)
    (pos : Nat) (x : α) (h1 : v.size ≤ v.slots.length) (h2 : pos ≤ v.size) :
    (Erase (EmplaceT t v pos x).1 pos).size = v.size ∧
    ∀ i, i < v.size →
      (Erase (EmplaceT t v pos x).1 pos).slots.getD i none =
        v.slots.getD i none := by
  obtain ⟨hs, hlen, hlow, hmid, hhigh⟩ := EmplaceT_fst_spec t v pos x h1 h2
  obtain ⟨hes, helow, hemid⟩ :=
    Erase_spec (EmplaceT t v pos x).1 pos (by omega) (by omega)
  constructor
  · rw [hes, hs]
    omega
  · intro i hi
    by_cases hip : i < pos
    · rw [helow i hip, hlow i hip]
    · rw [hemid i (by omega) (by omega), hhigh (i + 1) (by omega) (by omega)]
      congr 1

theorem insert_then_erase_roundtrip_witness :
    (Erase (EmplaceT ⟨true, true⟩ (⟨[some 1, some 2], 2⟩ : Vec Nat) 1 9).1
        1).size = 2 ∧
      (Erase (EmplaceT ⟨true, true⟩ (⟨[some 1, some 2], 2⟩ : Vec Nat) 1 9).1
          1).slots.getD 0 none = some 1 :=
  ⟨(insert_then_erase_roundtrip ⟨true, true⟩ ⟨[some 1, some 2], 2⟩ 1 9
      (by decide) (by decide)).1,
    (insert_then_erase_roundtrip ⟨true, true⟩ ⟨[some 1, some 2], 2⟩ 1 9
      (by decide) (by decide)).2 0 (by decide)⟩

/-- C6: for distinct vectors with `rhs.size <= Capacity()`, copy assignment
reuses the existing buffer: the result has the source's size and element
values, the capacity is unchanged (no reallocation happened — the trace has
no allocation event either, but capacity equality is what the claim
states), a shorter source destroys the destination's excess tail (the slots
become uninitialized and a destroy event is emitted for each), a longer
source copy-constructs the extra slots (a tail construction event per slot),
and the size update is the last event of the operation. -/
theorem copy_assign_within_capacity {α : Type} (v rhs : Vec α)
    (hv : v.size ≤ v.slots.length) (hc : rhs.size ≤ v.slots.length) :
    (copyAssignT v rhs false).1.size = rhs.size ∧
    (copyAssignT v rhs false).1.slots.length = v.slots.length ∧
    (∀ i, i < rhs.size →
      (copyAssignT v rhs false).1.slots.getD i none = rhs.slots.getD i none) ∧
    (rhs.size < v.size → ∀ i, rhs.size ≤ i → i < v.size →
      (copyAssignT v rhs false).1.slots.getD i none = none ∧
      Ev.destroyElem i ∈ (copyAssignT v rhs false).2) ∧
    (v.size < rhs.size → ∀ i, v.size ≤ i → i < rhs.size →
      Ev.copyConsTail i ∈ (copyAssignT v rhs false).2) ∧
    (copyAssignT v rhs false).2.getLast? = some (Ev.setSize rhs.size) := by
  rw [copyAssignT]
  simp only [Bool.false_eq_true, if_false]
  rw [if_neg (by omega)]
  by_cases hlt : rhs.size < v.size
  · rw [if_pos hlt]
    have hb1 : 0 + rhs.size ≤ v.slots.length := by omega
    have hb2 : rhs.size + (v.size - rhs.size) ≤
        (transferN rhs.slots v.slots 0 0 rhs.size).length := by
      rw [length_transferN]
      omega
    refine ⟨rfl, ?_, ?_, ?_, ?_, ?_⟩
    · show (setRange _ _ _ _).length = _
      rw [length_setRange, length_transferN]
    · intro i hi
      show (setRange _ _ _ _).getD i none = _
      rw [getD_setRange _ _ _ _ hb2 i, if_neg (by omega),
        getD_transferN _ _ _ _ _ hb1 i, if_pos (by omega)]
      congr 1
      omega
    · intro _ i hi1 hi2
      constructor
      · show (setRange _ _ _ _).getD i none = none
        rw [getD_setRange _ _ _ _ hb2 i, if_pos (by omega)]
      · show Ev.destroyElem i ∈ _ ++ _ ++ _
        simp [assignEvs, destroyElem_mem_destroyEvs]
        omega
    · intro h' i hi1 hi2
      exact absurd h' (by omega)
    · show (_ ++ _ ++ [Ev.setSize rhs.size]).getLast? = _
      rw [List.getLast?_concat]
  · rw [if_neg hlt]
    have hb1 : 0 + v.size ≤ v.slots.length := by omega
    have hb2 : v.size + (rhs.size - v.size) ≤
        (transferN rhs.slots v.slots 0 0 v.size).length := by
      rw [length_transferN]
      omega
    refine ⟨rfl, ?_, ?_, ?_, ?_, ?_⟩
    · show (transferN _ _ _ _ _).length = _
      rw [length_transferN, length_transferN]
    · intro i hi
      show (transferN _ _ _ _ _).getD i none = _
      by_cases hiv : i < v.size
      · rw [getD_transferN _ _ _ _ _ hb2 i, if_neg (by omega),
          getD_transferN _ _ _ _ _ hb1 i, if_pos (by omega)]
        congr 1
        omega
      · rw [getD_transferN _ _ _ _ _ hb2 i, if_pos (by omega)]
        congr 1
        omega
    · intro h' i hi1 hi2
      exact absurd h' hlt
    · intro h' i hi1 hi2
      show Ev.copyConsTail i ∈ _ ++ _ ++ _
      simp [assignEvs, copyConsTail_mem_copyConsEvs]
      omega
    · show (_ ++ _ ++ [Ev.setSize rhs.size]).getLast? = _
      rw [List.getLast?_concat]

theorem copy_assign_within_capacity_witness :
    (copyAssignT (⟨[some 1, some 2, some 3], 3⟩ : Vec Nat) ⟨[some 7], 1⟩
        false).1.size = 1 ∧
    Ev.destroyElem 2 ∈
      (copyAssignT (⟨[some 1, some 2, some 3], 3⟩ : Vec Nat) ⟨[some 7], 1⟩
        false).2 :=
  ⟨(copy_assign_within_capacity ⟨[some 1, some 2, some 3], 3⟩ ⟨[some 7], 1⟩
      (by decide) (by decide)).1,
    ((copy_assign_within_capacity ⟨[some 1, some 2, some 3], 3⟩ ⟨[some 7], 1⟩
        (by decide) (by decide)).2.2.2.1 (by decide) 2 (by decide)
      (by decide)).2⟩

/-- C2: when `size_ == Capacity()`, a growing append constructs the new
element in its final slot of the newly allocated buffer before any existing
element is transferred — in the trace, the construction event sits at
position 1 (right after the allocation) and every transfer event comes
strictly later — hence if constructing the new element throws, the
operation exits with the vector's size, capacity and every element value
exactly as before the call. -/
theorem grow_append_strong_guarantee {α : Type} (t : Traits) (v : Vec α)
    (x : α) (h : v.size = v.slots.length) :
    EmplaceBackGrow v x true = Except.error v ∧
    (EmplaceBackT t v x).2.getD 1 Ev.swapBuffers = Ev.constructNew v.size ∧
    (∀ j, isTransferEv ((EmplaceBackT t v x).2.getD j Ev.swapBuffers) = true →
      1 < j) := by
  refine ⟨rfl, ?_, ?_⟩
  · rw [EmplaceBackT, if_pos h]
    rfl
  · intro j hj
    rw [EmplaceBackT, if_pos h] at hj
    match j with
    | 0 => simp [isTransferEv] at hj
    | 1 => simp [isTransferEv] at hj
    | j + 2 => omega

theorem grow_append_strong_guarantee_witness :
    EmplaceBackGrow (⟨[some 5], 1⟩ : Vec Nat) 7 true =
      Except.error ⟨[some 5], 1⟩ :=
  (grow_append_strong_guarantee ⟨true, true⟩ ⟨[some 5], 1⟩ 7 (by decide)).1

/-- C3 is refuted by the code: for a copyable element type with a throwing
move constructor, a copy-construction failure during the transfer of
`Emplace`'s reallocating branch is caught by
`catch (...) { new_data.~RawMemory(); }` (vector.h lines 258-260) and not
rethrown; execution falls through to `std::destroy_n(begin(), size_)`,
`data_.Swap(new_data)` and `++size_`, so the vector ends up owning the
explicitly freed buffer (which is freed a second time at scope exit) with
an incremented size.  Concretely: a full vector `[10, 20]` of capacity 2,
`Emplace` at position 0, the first transfer copy throws — the final state
has `bufFreed = true` and `size_ = 3`, which is not a valid, destructible
state. -/
theorem emplace_copy_throw_not_destructible :
    EmplaceGrowCopyThrow (⟨[some 10, some 20], 2⟩ : Vec Nat) 0 99 0 =
      ⟨[some 99, none, none, none], true, 3⟩ ∧
    ¬ VecB.destructible
        (EmplaceGrowCopyThrow (⟨[some 10, some 20], 2⟩ : Vec Nat) 0 99 0) := by
  constructor
  · decide
  · decide

/-- C9 is refuted by the code at move assignment: `operator=(Vector&&)`
(vector.h lines 136-140) swaps the raw buffers but leaves `this->size_`
unchanged, so move-assigning a default-constructed vector into a
one-element vector — a two-step sequence of public operations starting from
default-constructed vectors — yields `size_ = 1` with capacity 0, violating
`0 <= size <= capacity` and the live-prefix invariant (which held before
the move assignment). -/
theorem move_assign_breaks_invariant :
    Vec.wf ((EmplaceBackT ⟨true, true⟩ (Vec.empty : Vec Nat) 0).1) ∧
    (moveAssign ((EmplaceBackT ⟨true, true⟩ (Vec.empty : Vec Nat) 0).1)
        Vec.empty).1.size = 1 ∧
    (moveAssign ((EmplaceBackT ⟨true, true⟩ (Vec.empty : Vec Nat) 0).1)
        Vec.empty).1.slots.length = 0 ∧
    ¬ Vec.wf
        ((moveAssign ((EmplaceBackT ⟨true, true⟩ (Vec.empty : Vec Nat) 0).1)
          Vec.empty).1) := by
  decide

end AdvVector
